import Mathlib

/-!
Verification of the `nanobot` voice-assistant pipeline
(`src/nanobot/voice/service.py` and `src/nanobot/voice/wakeword.py`).

The Python source is shallowly embedded below:

* audio frames are mono sample lists (`Frame := List Int`);
* Python `float` quantities (seconds, thresholds, scores, timestamps)
  are modelled exactly as rationals `ℚ`;
* Python strings are `List Char`; `str.lower()` is modelled on the
  ASCII range via `Char.toLower`, which is what all configured wake
  words use;
* the RMS comparison `rms(frame) < threshold` (with
  `rms = sqrt(mean(samples^2))`) is embedded square-free as
  `0 < threshold ∧ mean(samples^2) < threshold^2`, which is equivalent
  for exact arithmetic since both sides of the original comparison are
  nonnegative;
* the blocking queue is modelled by the list of frames it will yield;
  an exhausted list models a queue stall (timeout on `get`);
* calls to external capabilities (model predict, transcribe, agent,
  TTS, playback) are modelled by their outcomes, passed in as data.
-/

namespace NanobotVoice

/-- Audio frame: one fixed-duration block of mono int16 PCM samples
(`service.py` callback produces `indata[:, 0]`). -/
abbrev Frame := List Int

/-- Sum of squared samples of a frame. -/
def sumSq (f : Frame) : ℤ := (f.map (fun s => s * s)).sum

/-- Mean of squared samples (the quantity under the square root in
`VoiceAssistantService._rms`). -/
def meanSq (f : Frame) : ℚ := (sumSq f : ℚ) / (f.length : ℚ)

/-- Embedding of the comparison `self._rms(frame) < cfg.silence_threshold`
from `_record_utterance`.  `_rms` returns `sqrt(mean(samples^2)) ≥ 0`, so
`rms < thr ↔ 0 < thr ∧ meanSq < thr * thr`, which avoids square roots. -/
def frameIsSilent (thr : ℚ) (f : Frame) : Bool :=
  decide (0 < thr ∧ meanSq f < thr * thr)

/-- Runtime configuration of the service (`VoiceRuntimeConfig` in
`service.py`; device selectors are irrelevant to the verified logic and
omitted).  Durations in ms and the sample rate are ints in the source;
the second-valued durations and the silence threshold are floats,
modelled as `ℚ`. -/
structure VoiceRuntimeConfig where
  sample_rate : ℕ
  chunk_ms : ℕ
  pre_roll_ms : ℕ
  max_record_seconds : ℚ
  min_record_seconds : ℚ
  silence_threshold : ℚ
  silence_ms : ℕ

/-- The recorder's frame cap
`max_frames = max(1, int(cfg.max_record_seconds * 1000 / cfg.chunk_ms))`
(`service.py` line 189).  Python's `int()` truncates toward zero; after
the `max 1` clamp that agrees with `(⌊·⌋).toNat` for every rational. -/
def maxFramesOf (cfg : VoiceRuntimeConfig) : ℕ :=
  max 1 (⌊cfg.max_record_seconds * 1000 / (cfg.chunk_ms : ℚ)⌋).toNat

/-- The recorder's minimum frame count
`min_frames = max(1, int(cfg.min_record_seconds * 1000 / cfg.chunk_ms))`
(`service.py` line 190). -/
def minFramesOf (cfg : VoiceRuntimeConfig) : ℕ :=
  max 1 (⌊cfg.min_record_seconds * 1000 / (cfg.chunk_ms : ℚ)⌋).toNat

/-- The consecutive-silence limit
`silence_limit = max(1, int(cfg.silence_ms / cfg.chunk_ms))`
(`service.py` line 191); both operands are ints and the division is
nonnegative, so `Nat` floor division matches. -/
def silenceLimitOf (cfg : VoiceRuntimeConfig) : ℕ :=
  max 1 (cfg.silence_ms / cfg.chunk_ms)

/-- The pre-roll ring capacity
`pre_roll_frames = max(1, int(cfg.pre_roll_ms / cfg.chunk_ms))`
(`service.py` line 139). -/
def preRollFramesOf (cfg : VoiceRuntimeConfig) : ℕ :=
  max 1 (cfg.pre_roll_ms / cfg.chunk_ms)

/-- Loop body of `VoiceAssistantService._record_utterance`
(`service.py` lines 196-208): `fuel` is the remaining iterations of
`for _ in range(max_frames)`, `count` the number of frames appended so
far, `silence` the consecutive-silence counter, and the list argument
the frames the queue will still yield (empty list = queue stall, which
breaks the loop).  After appending a frame the loop breaks when
`len(frames) >= min_frames and silence_frames >= silence_limit`. -/
def recordGo (thr : ℚ) (minF silL : ℕ) : ℕ → ℕ → ℕ → List Frame → List Frame
  | 0, _, _, _ => []
  | _ + 1, _, _, [] => []
  | fuel + 1, count, silence, f :: rest =>
    let silence' := if frameIsSilent thr f then silence + 1 else 0
    if minF ≤ count + 1 ∧ silL ≤ silence' then [f]
    else f :: recordGo thr minF silL fuel (count + 1) silence' rest

/-- Embedding of `VoiceAssistantService._record_utterance`
(`service.py` lines 187-209), with the queue modelled by the list of
frames it will yield. -/
def recordUtterance (cfg : VoiceRuntimeConfig) (stream : List Frame) : List Frame :=
  recordGo cfg.silence_threshold (minFramesOf cfg) (silenceLimitOf cfg)
    (maxFramesOf cfg) 0 0 stream

/-- One `ring.append(frame)` on a `collections.deque` with
`maxlen = cap` (`service.py` lines 140, 170): the new element goes to
the right and the leftmost element is discarded when the deque is
full. -/
def ringPush (cap : ℕ) (ring : List Frame) (f : Frame) : List Frame :=
  let r := ring ++ [f]
  r.drop (r.length - cap)

/-- Contents of the ring buffer after pushing a whole sequence of
frames, starting empty. -/
def ringHistory (cap : ℕ) (frames : List Frame) : List Frame :=
  frames.foldl (ringPush cap) []

/-- One iteration of the listening loop of
`VoiceAssistantService._run_blocking` for a captured frame
(`service.py` lines 167-171), restricted to its effect on the ring and
the gate: while `self._speaking` the iteration hits `continue` before
`ring.append(frame)`, so the frame is sunk without touching the ring
and without evaluating the detector; otherwise the frame is appended
and the gate is evaluated.  Returns the new ring contents and whether
the gate was evaluated for this frame. -/
def pipelineStep (cap : ℕ) (speaking : Bool) (ring : List Frame) (frame : Frame) :
    List Frame × Bool :=
  if speaking then (ring, false) else (ringPush cap ring frame, true)

/-- Characters stripped by Python `str.strip()` (the ASCII whitespace
set; the exotic Unicode spaces never occur in keyword labels). -/
def pyIsSpace (c : Char) : Bool :=
  c = ' ' || c = '\t' || c = '\n' || c = '\r' || c = '\x0b' || c = '\x0c'

/-- Python `s.strip()`: remove leading and trailing whitespace. -/
def pyStrip (l : List Char) : List Char :=
  ((l.dropWhile pyIsSpace).reverse.dropWhile pyIsSpace).reverse

/-- Python `s.lower()` on the ASCII range. -/
def pyLower (l : List Char) : List Char := l.map Char.toLower

/-- Replacement of a single underscore character by a space. -/
def uToSp (c : Char) : Char := if c = '_' then ' ' else c

/-- Python `s.replace("_", " ")` for the single-character pattern. -/
def underscoreToSpace (l : List Char) : List Char := l.map uToSp

/-- Embedding of `_normalize_keyword` (`wakeword.py` lines 32-33):
`name.strip().lower().replace("_", " ")`. -/
def normalizeKeyword (l : List Char) : List Char :=
  underscoreToSpace (pyLower (pyStrip l))

/-- Wake-word configuration (`WakeWordConfig` in `wakeword.py`; the
model paths only select the acoustic model, which is external). -/
structure WakeWordConfig where
  wake_word : List Char
  threshold : ℚ
  cooldown_s : ℚ

/-- Prediction mapping returned by the acoustic model: keyword labels
with scores, in dict iteration (insertion) order; keys are unique in a
Python dict. -/
abbrev Predictions := List (List Char × ℚ)

/-- Mutable detector state: `self.last_trigger` (`wakeword.py`
line 50). -/
structure DetectorState where
  last_trigger : ℚ

/-- Value of `normalized_keys[normalized_target]` where
`normalized_keys = {_normalize_keyword(k): k for k in predictions.keys()}`
(`wakeword.py` line 56): a dict comprehension keeps the LAST key that
normalizes to the target. -/
def lastNormMatch (tgt : List Char) (keys : List (List Char)) : Option (List Char) :=
  keys.reverse.find? (fun k => decide (normalizeKeyword k = tgt))

/-- Embedding of `WakeWordDetector._target_keywords` (`wakeword.py`
lines 52-59). -/
def targetKeywords (cfg : WakeWordConfig) (ps : Predictions) : List (List Char) :=
  if ps = [] then []
  else
    match lastNormMatch (normalizeKeyword cfg.wake_word) (ps.map Prod.fst) with
    | some k => [k]
    | none => ps.map Prod.fst

/-- Python `predictions.get(key, 0.0)` on the prediction dict. -/
def scoreOf (k : List Char) : Predictions → ℚ
  | [] => 0
  | kv :: rest => if kv.fst = k then kv.snd else scoreOf k rest

/-- The `for key in self._target_keywords(predictions)` loop of
`detect` (`wakeword.py` lines 71-76), reduced to its boolean outcome:
true as soon as some listed keyword's score reaches the threshold. -/
def anyQualifies (thr : ℚ) (ps : Predictions) : List (List Char) → Bool
  | [] => false
  | k :: rest => if thr ≤ scoreOf k ps then true else anyQualifies thr ps rest

/-- Embedding of `WakeWordDetector.detect` (`wakeword.py` lines 61-77).
`preds = none` models a non-dict prediction result (the
`isinstance` guard); `now` is the value of `time.time()` for this
call.  Returns the boolean result and the state after the call:
`last_trigger` is assigned only on an accepted trigger. -/
def detect (cfg : WakeWordConfig) (st : DetectorState) (preds : Option Predictions)
    (now : ℚ) : Bool × DetectorState :=
  match preds with
  | none => (false, st)
  | some ps =>
    if now - st.last_trigger < cfg.cooldown_s then (false, st)
    else if anyQualifies cfg.threshold ps (targetKeywords cfg ps) then
      (true, { last_trigger := now })
    else (false, st)

/-- Sequential processing of a list of `detect` calls (prediction
result and timestamp per call), threading the detector state.  Returns
the list of boolean results and the final state. -/
def runDetect (cfg : WakeWordConfig) :
    DetectorState → List (Option Predictions × ℚ) → List Bool × DetectorState
  | st, [] => ([], st)
  | st, (p, t) :: rest =>
    let r := detect cfg st p t
    let rr := runDetect cfg r.2 rest
    (r.1 :: rr.1, rr.2)

/-- Modelled from the claim's words (for comparison with the source's
`_target_keywords`): "if the normalized configured wake word equals the
normalization of exactly one predicted keyword, compare only that
keyword; otherwise compare every predicted keyword". -/
def targetKeywordsClaim (cfg : WakeWordConfig) (ps : Predictions) : List (List Char) :=
  if ps = [] then []
  else
    let tgt := normalizeKeyword cfg.wake_word
    let hits := (ps.map Prod.fst).filter (fun k => decide (normalizeKeyword k = tgt))
    if hits.length = 1 then hits else ps.map Prod.fst

/-- The claim's reading of `detect`, differing from the source only in
the keyword-restriction rule. -/
def detectClaim (cfg : WakeWordConfig) (st : DetectorState) (preds : Option Predictions)
    (now : ℚ) : Bool × DetectorState :=
  match preds with
  | none => (false, st)
  | some ps =>
    if now - st.last_trigger < cfg.cooldown_s then (false, st)
    else if anyQualifies cfg.threshold ps (targetKeywordsClaim cfg ps) then
      (true, { last_trigger := now })
    else (false, st)

/-- Outcome of one awaited external call inside the utterance handler:
either a returned value or a raised exception. -/
inductive CallRes (α : Type) where
  | ok : α → CallRes α
  | exn : CallRes α
deriving DecidableEq

/-- Outcomes of the external capabilities for one run of
`VoiceAssistantService._handle_utterance`: the transcription text
(empty list models both the empty string and `None`), the agent reply
(likewise), the TTS result (`some` path or `none`), and the playback
result. -/
structure HandlerEnv where
  transcribeRes : CallRes (List Char)
  agentRes : CallRes (List Char)
  ttsRes : CallRes (Option Unit)
  playRes : CallRes Unit

/-- Observable outcome of one run of `_handle_utterance`: the value of
`self._speaking` when the coroutine returns or raises, whether the flag
was ever assigned `True` during the call, its value at the moment
synthesis starts (`none` when synthesis is never reached), which
capabilities were invoked, and whether the coroutine raised. -/
structure HandlerOut where
  speaking : Bool
  everSetSpeaking : Bool
  speakingAtSynthStart : Option Bool
  agentCalled : Bool
  synthCalled : Bool
  playCalled : Bool
  raised : Bool
deriving DecidableEq

/-- Embedding of `VoiceAssistantService._handle_utterance`
(`service.py` lines 236-265), branch by branch: empty transcription
returns before the agent call; empty reply returns before synthesis;
otherwise `self._speaking = True` precedes the `try` block whose
`finally` clears the flag on every exit path (TTS failure, no TTS
output, playback failure, playback success).  `speaking0` is the value
of the flag on entry. -/
def handleUtterance (speaking0 : Bool) (env : HandlerEnv) : HandlerOut :=
  match env.transcribeRes with
  | .exn => ⟨speaking0, false, none, false, false, false, true⟩
  | .ok text =>
    if text = [] then ⟨speaking0, false, none, false, false, false, false⟩
    else
      match env.agentRes with
      | .exn => ⟨speaking0, false, none, true, false, false, true⟩
      | .ok resp =>
        if resp = [] then ⟨speaking0, false, none, true, false, false, false⟩
        else
          match env.ttsRes with
          | .exn => ⟨false, true, some true, true, true, false, true⟩
          | .ok none => ⟨false, true, some true, true, true, false, false⟩
          | .ok (some _) =>
            match env.playRes with
            | .exn => ⟨false, true, some true, true, true, true, true⟩
            | .ok _ => ⟨false, true, some true, true, true, true, false⟩

/-- Example configuration with `min_frames = 2`, `silence_limit = 2`,
`max_frames = 10` for the recorder claims. -/
def cfgRec : VoiceRuntimeConfig :=
  { sample_rate := 16000, chunk_ms := 100, pre_roll_ms := 300,
    max_record_seconds := 1, min_record_seconds := mkRat 1 5,
    silence_threshold := 1, silence_ms := 200 }

/-- Stream that is loud for `min_frames - 1 = 1` frame and silent from
the frame at which the minimum count is reached. -/
def streamMinEdge : List Frame := [[2], [0], [0], [0], [0], [0]]

/-- Stream that is loud for the first `min_frames = 2` frames and
silent for the `silence_limit = 2` frames after them. -/
def streamMinLoud : List Frame := [[2], [2], [0], [0], [0]]

/-- Stream of `max_frames = 10` loud frames. -/
def streamAllLoud : List Frame := List.replicate 10 ([2] : Frame)

/-- Example wake-word configuration: word `hey nano`, threshold `1/2`,
no cooldown. -/
def cfgWake : WakeWordConfig := ⟨"hey nano".toList, mkRat 1 2, 0⟩

/-- Example wake-word configuration with a 2-second cooldown. -/
def cfgWakeCd : WakeWordConfig := ⟨"hey nano".toList, mkRat 1 2, 2⟩

/-- Prediction mapping in which two distinct keys normalize to the
configured wake word: the first scores above threshold, the last
below. -/
def predsTwoKeys : Predictions :=
  [("Hey_Nano".toList, mkRat 9 10), ("hey nano".toList, mkRat 1 10)]

/-- Prediction mapping with a single matching key scoring 1. -/
def predsHit : Predictions := [("hey nano".toList, 1)]

/-- Handler environment: everything succeeds and is non-empty. -/
def envAllOk : HandlerEnv :=
  ⟨.ok "hi".toList, .ok "ok".toList, .ok (some ()), .ok ()⟩

/-- Handler environment: transcription returns the empty string. -/
def envEmptyText : HandlerEnv := ⟨.ok [], .ok [], .ok none, .ok ()⟩

/-- Handler environment: transcription non-empty, agent reply empty. -/
def envEmptyReply : HandlerEnv := ⟨.ok "hi".toList, .ok [], .ok none, .ok ()⟩

/-! ## Helper lemmas -/

/-- Appending one frame to a folded ring history is one `ringPush`. -/
theorem ringHistory_concat (cap : ℕ) (l : List Frame) (f : Frame) :
    ringHistory cap (l ++ [f]) = ringPush cap (ringHistory cap l) f := by
  simp [ringHistory, List.foldl_append]

/-- Closed form of the ring-buffer contents: the most recent `cap`
frames (all of them while fewer have been pushed). -/
theorem ringHistory_eq_drop (cap : ℕ) (l : List Frame) :
    ringHistory cap l = l.drop (l.length - cap) := by
  induction l using List.reverseRecOn with
  | nil => simp [ringHistory]
  | append_singleton l f ih =>
    rw [ringHistory_concat, ih, ringPush]
    rw [← @List.drop_append_of_le_length _ l [f] _ (Nat.sub_le _ _), List.drop_drop]
    simp only [List.length_drop, List.length_append, List.length_singleton]
    congr 1
    omega

/-- Lean's ASCII `Char.toLower` is idempotent. -/
theorem char_toLower_idem (c : Char) : c.toLower.toLower = c.toLower := by
  by_cases h : 65 ≤ c.toNat ∧ c.toNat ≤ 90
  · have e : c.toLower = Char.ofNat (c.toNat + 32) := by
      unfold Char.toLower
      exact if_pos h
    rw [e]
    obtain ⟨h1, h2⟩ := h
    generalize c.toNat = n at h1 h2
    interval_cases n <;> decide
  · have e : c.toLower = c := by
      unfold Char.toLower
      exact if_neg h
    rw [e, e]

/-- The underscore-to-space replacement composed with ASCII lowering is
idempotent on characters. -/
theorem uToSp_toLower_fix (c : Char) :
    uToSp (Char.toLower (uToSp (Char.toLower c))) = uToSp (Char.toLower c) := by
  by_cases hc : Char.toLower c = '_'
  · rw [hc]
    decide
  · have h2 : uToSp (Char.toLower c) = Char.toLower c := by
      simp [uToSp, hc]
    rw [h2, char_toLower_idem, h2]

/-- Lower-and-replace is idempotent on whole strings. -/
theorem lowerReplace_idem (t : List Char) :
    underscoreToSpace (pyLower (underscoreToSpace (pyLower t))) =
      underscoreToSpace (pyLower t) := by
  unfold underscoreToSpace pyLower
  simp only [List.map_map]
  refine List.map_congr_left fun c _ => ?_
  simp only [Function.comp_apply]
  exact uToSp_toLower_fix c

/-- Detect with a non-dict prediction result returns false and leaves
the state unchanged. -/
theorem detect_none_eq (cfg : WakeWordConfig) (st : DetectorState) (now : ℚ) :
    detect cfg st none now = (false, st) := rfl

/-- Detect inside the cooldown window returns false and leaves the
state unchanged, whatever the prediction result. -/
theorem detect_blocked (cfg : WakeWordConfig) (st : DetectorState)
    (p : Option Predictions) (now : ℚ) (h : now - st.last_trigger < cfg.cooldown_s) :
    detect cfg st p now = (false, st) := by
  cases p with
  | none => rfl
  | some ps => simp [detect, h]

/-- An accepted trigger stores the call's timestamp. -/
theorem detect_true_snd {cfg : WakeWordConfig} {st : DetectorState}
    {p : Option Predictions} {now : ℚ} (h : (detect cfg st p now).fst = true) :
    (detect cfg st p now).snd = ⟨now⟩ := by
  cases p with
  | none => simp [detect] at h
  | some ps =>
    unfold detect at h ⊢
    split_ifs at h ⊢
    all_goals by_cases hb : anyQualifies cfg.threshold ps (targetKeywords cfg ps) = true
    all_goals simp_all

/-- A rejected call leaves the detector state unchanged. -/
theorem detect_false_snd {cfg : WakeWordConfig} {st : DetectorState}
    {p : Option Predictions} {now : ℚ} (h : (detect cfg st p now).fst = false) :
    (detect cfg st p now).snd = st := by
  cases p with
  | none => rfl
  | some ps =>
    unfold detect at h ⊢
    split_ifs at h ⊢
    all_goals by_cases hb : anyQualifies cfg.threshold ps (targetKeywords cfg ps) = true
    all_goals simp_all

/-- Outside the cooldown window, the detect result is the qualification
scan over the target keywords. -/
theorem detect_fst_eq (cfg : WakeWordConfig) (st : DetectorState) (ps : Predictions)
    (now : ℚ) (hcool : ¬(now - st.last_trigger < cfg.cooldown_s)) :
    (detect cfg st (some ps) now).fst =
      anyQualifies cfg.threshold ps (targetKeywords cfg ps) := by
  simp only [detect, if_neg hcool]
  by_cases hb : anyQualifies cfg.threshold ps (targetKeywords cfg ps) <;> simp [hb]

/-- In a duplicate-free prediction mapping, looking a key up recovers
the score stored with it. -/
theorem scoreOf_eq_of_nodup :
    ∀ (ps : Predictions) (kv : List Char × ℚ), (ps.map Prod.fst).Nodup → kv ∈ ps →
      scoreOf kv.fst ps = kv.snd := by
  intro ps
  induction ps with
  | nil =>
    intro kv _ h
    simp at h
  | cons a rest ih =>
    intro kv hnd hmem
    rw [List.map_cons, List.nodup_cons] at hnd
    rcases List.mem_cons.mp hmem with h | h
    · subst h
      simp [scoreOf]
    · have hne : a.fst ≠ kv.fst := by
        intro e
        exact hnd.1 (e ▸ List.mem_map_of_mem Prod.fst h)
      simp only [scoreOf]
      rw [if_neg hne]
      exact ih kv hnd.2 h

/-- Scanning the keys of a mapping whose lookups agree with the stored
scores is the same as scanning the stored scores. -/
theorem anyQualifies_keys (thr : ℚ) (overall : Predictions) :
    ∀ ps : Predictions, (∀ kv ∈ ps, scoreOf kv.fst overall = kv.snd) →
      anyQualifies thr overall (ps.map Prod.fst) =
        ps.any fun kv => decide (thr ≤ kv.snd) := by
  intro ps
  induction ps with
  | nil => intro _; rfl
  | cons a rest ih =>
    intro h
    simp only [List.map_cons, anyQualifies, List.any_cons]
    rw [h a (List.mem_cons_self ..)]
    by_cases hq : thr ≤ a.snd
    · simp [hq]
    · rw [if_neg hq, ih fun kv hk => h kv (List.mem_cons_of_mem _ hk)]
      simp [hq]

/-- The recorder never returns more frames than its loop bound. -/
theorem recordGo_length_le (thr : ℚ) (minF silL : ℕ) :
    ∀ (fuel count silence : ℕ) (s : List Frame),
      (recordGo thr minF silL fuel count silence s).length ≤ fuel := by
  intro fuel
  induction fuel with
  | zero =>
    intro _ _ s
    simp [recordGo]
  | succ n ih =>
    intro count silence s
    cases s with
    | nil => simp [recordGo]
    | cons f rest =>
      simp only [recordGo]
      split <;> split
      · simp
      · simpa using ih (count + 1) _ rest
      · simp
      · simpa using ih (count + 1) _ rest

/-- With fuel left and a frame available, the recorder returns at least
that frame. -/
theorem recordGo_cons_ne_nil (thr : ℚ) (minF silL fuel count silence : ℕ)
    (f : Frame) (rest : List Frame) :
    recordGo thr minF silL (fuel + 1) count silence (f :: rest) ≠ [] := by
  simp only [recordGo]
  split <;> split <;> simp

/-- A run of `n` loud frames is consumed whole: each one resets the
silence counter to zero, so (the limit being at least 1) the stop
condition cannot fire during the run. -/
theorem recordGo_loud_run (thr : ℚ) (minF silL : ℕ) (hL : 1 ≤ silL) :
    ∀ (n : ℕ) (s : List Frame) (fuel count : ℕ),
      n ≤ s.length → n ≤ fuel →
      (∀ i, i < n → frameIsSilent thr (s.getD i []) = false) →
      recordGo thr minF silL fuel count 0 s =
        s.take n ++ recordGo thr minF silL (fuel - n) (count + n) 0 (s.drop n) := by
  intro n
  induction n with
  | zero =>
    intro s fuel count _ _ _
    simp
  | succ m ih =>
    intro s fuel count hlen hfuel hloud
    cases s with
    | nil => simp at hlen
    | cons f rest =>
      cases fuel with
      | zero => omega
      | succ fu =>
        have hf : frameIsSilent thr f = false := hloud 0 (Nat.succ_pos m)
        simp only [recordGo, hf, Bool.false_eq_true, if_false]
        rw [if_neg (show ¬(minF ≤ count + 1 ∧ silL ≤ 0) by omega)]
        rw [ih rest fu (count + 1) (by simpa using hlen) (by omega)
          (fun i hi => by simpa using hloud (i + 1) (by omega))]
        have e1 : count + 1 + m = count + (m + 1) := by omega
        have e2 : fu - m = fu + 1 - (m + 1) := by omega
        rw [e1, e2]
        simp [List.take_succ_cons, List.drop_succ_cons]

/-- Once the minimum count is secured, a run of silent frames is
consumed exactly until the silence counter reaches the limit, and the
recorder stops there. -/
theorem recordGo_silent_run (thr : ℚ) (minF silL : ℕ) :
    ∀ (s : List Frame) (fuel count j : ℕ),
      j < silL → silL - j ≤ fuel → silL - j ≤ s.length → minF ≤ count + 1 →
      (∀ i, i < silL - j → frameIsSilent thr (s.getD i []) = true) →
      recordGo thr minF silL fuel count j s = s.take (silL - j) := by
  intro s
  induction s with
  | nil =>
    intro fuel count j _ _ _ _ _
    cases fuel <;> simp [recordGo]
  | cons f rest ih =>
    intro fuel count j hj hfuel hlen hmin hsil
    cases fuel with
    | zero => omega
    | succ fu =>
      have hf : frameIsSilent thr f = true := hsil 0 (by omega)
      simp only [recordGo, hf, if_true]
      by_cases hstop : silL ≤ j + 1
      · rw [if_pos ⟨hmin, hstop⟩]
        have e : silL - j = 1 := by omega
        rw [e]
        simp
      · rw [if_neg fun h => hstop h.2]
        rw [ih fu (count + 1) (j + 1) (by omega) (by omega)
          (by simp at hlen ⊢; omega) (by omega)
          (fun i hi => by simpa using hsil (i + 1) (by omega))]
        have e : silL - j = (silL - (j + 1)) + 1 := by omega
        rw [e]
        simp [List.take_succ_cons]

/-- Reading an element of a dropped list at a default. -/
theorem getD_drop_frames (s : List Frame) (m i : ℕ) :
    (s.drop m).getD i ([] : Frame) = s.getD (m + i) [] := by
  simp [List.getD_eq_getElem?_getD, List.getElem?_drop]

/-! ## Claim theorems -/

/-- C1 (counterexample): the claim says that while the speaking flag is
set a captured frame is still appended to the ring buffer.  In the
source the `continue` fires before `ring.append(frame)`, so with
`speaking = true` and an empty ring the ring stays empty rather than
becoming `[[1]]`. -/
theorem speaking_ring_append_counterexample :
    (pipelineStep 2 true [] [1]).fst = [] ∧ ([] : List Frame) ≠ [[1]] := by
  decide

/-- C1 (amended): while the speaking flag is set, a captured frame is
dropped entirely: the ring buffer is left unchanged and the gate is not
evaluated; when the flag is clear the frame is appended to the ring and
the gate is evaluated. -/
theorem speaking_skips_ring_and_gate (cap : ℕ) (ring : List Frame) (f : Frame) :
    pipelineStep cap true ring f = (ring, false) ∧
      pipelineStep cap false ring f = (ringPush cap ring f, true) :=
  ⟨rfl, rfl⟩

/-- C3: for every sequence of pushed frames, the ring contents (the
snapshot `list(ring)` taken on trigger) equal the full sequence when it
fits the capacity, and exactly the most recent `capacity` frames in
order otherwise, with `capacity = max(1, pre_roll_ms / chunk_ms)`
(floor division). -/
theorem ring_snapshot_last_capacity (cfg : VoiceRuntimeConfig) (l : List Frame) :
    ringHistory (preRollFramesOf cfg) l =
      if l.length ≤ preRollFramesOf cfg then l
      else l.drop (l.length - preRollFramesOf cfg) := by
  rw [ringHistory_eq_drop]
  split
  · next h =>
    rw [Nat.sub_eq_zero_of_le h, List.drop_zero]
  · rfl

/-- C5 (counterexample): keyword normalization is not idempotent: for
the label `"_a"` one pass yields `" a"` (the replaced underscore leaves
a leading space) and a second pass strips it to `"a"`. -/
theorem normalize_keyword_not_idempotent :
    normalizeKeyword (normalizeKeyword ("_a".toList)) ≠ normalizeKeyword ("_a".toList) := by
  decide

/-- C5 (amended): keyword normalization is idempotent on every label
whose normalized form is already stripped (equivalently, whose stripped
form has no underscore at either end, so replacement introduces no
leading or trailing whitespace); labels differing only in case,
interior underscores-versus-spaces, or surrounding whitespace still
normalize identically, e.g. `"Hey_Nano "` and `"hey nano"`. -/
theorem normalize_keyword_idem_on_stripped :
    (∀ s : List Char, pyStrip (normalizeKeyword s) = normalizeKeyword s →
        normalizeKeyword (normalizeKeyword s) = normalizeKeyword s) ∧
      normalizeKeyword ("Hey_Nano ".toList) = normalizeKeyword ("hey nano".toList) := by
  constructor
  · intro s h
    conv_lhs => rw [normalizeKeyword]
    rw [h]
    conv_lhs => rw [normalizeKeyword]
    conv_rhs => rw [normalizeKeyword]
    exact lowerReplace_idem (pyStrip s)
  · decide

/-- C5 (witness): the amended idempotence applies to `"hey nano"`. -/
theorem normalize_keyword_idem_witness :
    normalizeKeyword (normalizeKeyword ("hey nano".toList)) =
      normalizeKeyword ("hey nano".toList) :=
  normalize_keyword_idem_on_stripped.1 ("hey nano".toList) (by decide)

/-- C8: when transcription and the agent reply are non-empty, the
speaking flag reads `true` at the moment synthesis starts and is
cleared by the `finally` on every exit path — synthesis failure, no
synthesis output, playback failure, playback success, and the
exceptional paths. -/
theorem handler_clears_speaking (speaking0 : Bool) (env : HandlerEnv)
    (text resp : List Char) (ht : env.transcribeRes = .ok text) (htne : text ≠ [])
    (ha : env.agentRes = .ok resp) (hrne : resp ≠ []) :
    (handleUtterance speaking0 env).speakingAtSynthStart = some true ∧
      (handleUtterance speaking0 env).synthCalled = true ∧
      (handleUtterance speaking0 env).speaking = false := by
  obtain ⟨tr, ag, tts, pl⟩ := env
  simp only at ht ha
  subst ht
  subst ha
  simp only [handleUtterance]
  rw [if_neg htne, if_neg hrne]
  cases tts with
  | exn => exact ⟨rfl, rfl, rfl⟩
  | ok o =>
    cases o with
    | none => exact ⟨rfl, rfl, rfl⟩
    | some u => cases pl <;> exact ⟨rfl, rfl, rfl⟩

/-- C8 (witness): with every capability succeeding, the handler sets
the flag before synthesis and returns with it cleared. -/
theorem handler_clears_speaking_witness :
    (handleUtterance false envAllOk).speakingAtSynthStart = some true ∧
      (handleUtterance false envAllOk).synthCalled = true ∧
      (handleUtterance false envAllOk).speaking = false :=
  handler_clears_speaking false envAllOk ("hi".toList) ("ok".toList) rfl (by decide)
    rfl (by decide)

/-- C9: an empty transcription ends the turn before the agent call
(no agent, no synthesis, no playback, nothing raised, flag untouched),
and an empty agent reply ends it after the agent call but before
synthesis, likewise without touching the speaking flag. -/
theorem handler_empty_silent (speaking0 : Bool) (env : HandlerEnv) :
    (env.transcribeRes = .ok [] →
        handleUtterance speaking0 env =
          ⟨speaking0, false, none, false, false, false, false⟩) ∧
      ∀ text resp, env.transcribeRes = .ok text → text ≠ [] →
        env.agentRes = .ok resp → resp = [] →
        handleUtterance speaking0 env =
          ⟨speaking0, false, none, true, false, false, false⟩ := by
  obtain ⟨tr, ag, tts, pl⟩ := env
  constructor
  · intro h
    simp only at h
    subst h
    rfl
  · intro text resp h1 h2 h3 h4
    simp only at h1 h3
    subst h1
    subst h3
    subst h4
    simp only [handleUtterance]
    rw [if_neg h2]
    simp

/-- C9 (witness): concrete empty-transcription and empty-reply runs end
silently with the flag untouched. -/
theorem handler_empty_silent_witness :
    handleUtterance false envEmptyText = ⟨false, false, none, false, false, false, false⟩ ∧
      handleUtterance false envEmptyReply = ⟨false, false, none, true, false, false, false⟩ :=
  ⟨(handler_empty_silent false envEmptyText).1 rfl,
    (handler_empty_silent false envEmptyReply).2 ("hi".toList) [] rfl (by decide) rfl rfl⟩

/-- C4: after an accepted trigger at `t1`, the stored timestamp is
`t1`, every later call at a time within the cooldown window returns
false whatever its predictions, and a rejected call never mutates the
stored timestamp. -/
theorem detect_cooldown_and_mutation (cfg : WakeWordConfig) (st : DetectorState)
    (p : Option Predictions) (t1 : ℚ) (trace : List (Option Predictions × ℚ))
    (htrig : (detect cfg st p t1).fst = true)
    (htimes : ∀ c ∈ trace, c.snd - t1 < cfg.cooldown_s) :
    (detect cfg st p t1).snd.last_trigger = t1 ∧
      (runDetect cfg (detect cfg st p t1).snd trace).fst =
        trace.map (fun _ => false) ∧
      ∀ (s2 : DetectorState) (q : Option Predictions) (t : ℚ),
        (detect cfg s2 q t).fst = false → (detect cfg s2 q t).snd = s2 := by
  have hsnd := detect_true_snd htrig
  refine ⟨by rw [hsnd], ?_, fun s2 q t h => detect_false_snd h⟩
  rw [hsnd]
  clear htrig hsnd
  revert htimes
  induction trace with
  | nil =>
    intro _
    rfl
  | cons c rest ih =>
    intro htimes
    obtain ⟨cp, ct⟩ := c
    have hb : detect cfg ⟨t1⟩ cp ct = (false, ⟨t1⟩) :=
      detect_blocked cfg ⟨t1⟩ cp ct (htimes (cp, ct) (List.mem_cons_self ..))
    simp only [runDetect, hb, List.map_cons]
    exact congrArg (false :: ·) (ih fun d hd => htimes d (List.mem_cons_of_mem _ hd))

/-- C4 (witness): with a 2-second cooldown, a trigger accepted at time
5 stores 5, and a high-scoring call at time 6 is rejected. -/
theorem detect_cooldown_witness :
    (detect cfgWakeCd ⟨0⟩ (some predsHit) 5).snd.last_trigger = 5 ∧
      (runDetect cfgWakeCd (detect cfgWakeCd ⟨0⟩ (some predsHit) 5).snd
        [(some predsHit, 6)]).fst = [false] :=
  ⟨(detect_cooldown_and_mutation cfgWakeCd ⟨0⟩ (some predsHit) 5 [(some predsHit, 6)]
      (by with_unfolding_all rfl) (of_decide_eq_true (by with_unfolding_all rfl))).1,
    (detect_cooldown_and_mutation cfgWakeCd ⟨0⟩ (some predsHit) 5 [(some predsHit, 6)]
      (by with_unfolding_all rfl) (of_decide_eq_true (by with_unfolding_all rfl))).2.1⟩

/-- C6 (counterexample): with wake word `hey nano` and predictions
`{"Hey_Nano": 0.9, "hey nano": 0.1}` (threshold 1/2, cooldown elapsed),
the claim's rule — "exactly one normalized match restricts the scan,
otherwise every keyword is compared" — yields true (two keys normalize
to the target, so it scans all keys and `Hey_Nano` qualifies), while
the source restricts the scan to the LAST matching key (the dict
comprehension overwrites) and returns false. -/
theorem detect_exact_one_counterexample :
    (detectClaim cfgWake ⟨0⟩ (some predsTwoKeys) 0).fst = true ∧
      (detect cfgWake ⟨0⟩ (some predsTwoKeys) 0).fst = false := by
  constructor
  · with_unfolding_all rfl
  · with_unfolding_all rfl

/-- C6 (amended): outside the cooldown window, on a non-empty
duplicate-free mapping: if at least one predicted keyword normalizes to
the configured wake word, detect compares only the LAST such keyword in
iteration order against the threshold; otherwise it compares every
predicted keyword's score.  A non-dict prediction result returns false
with the state unchanged, and an empty mapping returns false. -/
theorem detect_restricts_to_last_match (cfg : WakeWordConfig) (st : DetectorState)
    (now : ℚ) (ps : Predictions)
    (hcool : ¬(now - st.last_trigger < cfg.cooldown_s))
    (hne : ps ≠ []) (hnd : (ps.map Prod.fst).Nodup) :
    ((detect cfg st (some ps) now).fst =
        match lastNormMatch (normalizeKeyword cfg.wake_word) (ps.map Prod.fst) with
        | some k => decide (cfg.threshold ≤ scoreOf k ps)
        | none => ps.any fun kv => decide (cfg.threshold ≤ kv.snd)) ∧
      (∀ (s2 : DetectorState) (t : ℚ), detect cfg s2 none t = (false, s2)) ∧
      ∀ (s2 : DetectorState) (t : ℚ), (detect cfg s2 (some []) t).fst = false := by
  refine ⟨?_, fun s2 t => rfl, fun s2 t => ?_⟩
  · rw [detect_fst_eq cfg st ps now hcool]
    rw [targetKeywords, if_neg hne]
    cases hm : lastNormMatch (normalizeKeyword cfg.wake_word) (ps.map Prod.fst) with
    | some k =>
      by_cases hq : cfg.threshold ≤ scoreOf k ps <;> simp [anyQualifies, hq]
    | none =>
      exact anyQualifies_keys cfg.threshold ps ps
        fun kv hk => scoreOf_eq_of_nodup ps kv hnd hk
  · unfold detect
    split_ifs with h
    · rfl
    · simp [targetKeywords, anyQualifies]

/-- C6 (witness): on the two-key mapping the source compares only the
last matching key, whose score is below threshold. -/
theorem detect_restricts_witness :
    (detect cfgWake ⟨0⟩ (some predsTwoKeys) 0).fst = false := by
  rw [(detect_restricts_to_last_match cfgWake ⟨0⟩ 0 predsTwoKeys
    (of_decide_eq_true (by with_unfolding_all rfl)) (by decide) (by decide)).1]
  with_unfolding_all rfl

/-- C2 (counterexample): with `min_frames = 2`, `silence_limit = 2`,
`max_frames = 10`, a stream that is loud for the first
`min_frames - 1 = 1` frame and silent from there on satisfies the
claim's hypotheses (frames after reaching `min_frames`, i.e. at indices
2 and 3, are silent), yet the recorder returns 3 frames, not
`min_frames + silence_frames = 4`: the unconstrained frame at index 1
is silent, so the counter is already 1 when the minimum is reached. -/
theorem record_min_silence_counterexample :
    minFramesOf cfgRec = 2 ∧ silenceLimitOf cfgRec = 2 ∧ maxFramesOf cfgRec = 10 ∧
      frameIsSilent cfgRec.silence_threshold (streamMinEdge.getD 0 []) = false ∧
      frameIsSilent cfgRec.silence_threshold (streamMinEdge.getD 2 []) = true ∧
      frameIsSilent cfgRec.silence_threshold (streamMinEdge.getD 3 []) = true ∧
      (recordUtterance cfgRec streamMinEdge).length = 3 ∧
      (3 : ℕ) ≠ minFramesOf cfgRec + silenceLimitOf cfgRec := by
  refine ⟨?_, ?_, ?_, ?_, ?_, ?_, ?_, of_decide_eq_true ?_⟩ <;> with_unfolding_all rfl

/-- C2 (amended): for every stream whose frames are loud for the first
`min_frames` frames and silent for the `silence_frames = silence_limit`
frames immediately after them (with `min_frames + silence_frames ≤
max_frames` and the stream long enough), the recorder returns exactly
`min_frames + silence_frames` frames. -/
theorem record_stops_after_min_and_silence (cfg : VoiceRuntimeConfig)
    (stream : List Frame)
    (hmax : minFramesOf cfg + silenceLimitOf cfg ≤ maxFramesOf cfg)
    (hlen : minFramesOf cfg + silenceLimitOf cfg ≤ stream.length)
    (hloud : ∀ i, i < minFramesOf cfg →
      frameIsSilent cfg.silence_threshold (stream.getD i []) = false)
    (hsil : ∀ j, j < silenceLimitOf cfg →
      frameIsSilent cfg.silence_threshold (stream.getD (minFramesOf cfg + j) []) = true) :
    (recordUtterance cfg stream).length = minFramesOf cfg + silenceLimitOf cfg := by
  have hL : 1 ≤ silenceLimitOf cfg := le_max_left 1 _
  unfold recordUtterance
  rw [recordGo_loud_run cfg.silence_threshold (minFramesOf cfg) (silenceLimitOf cfg) hL
    (minFramesOf cfg) stream (maxFramesOf cfg) 0 (by omega) (by omega) hloud]
  rw [recordGo_silent_run cfg.silence_threshold (minFramesOf cfg) (silenceLimitOf cfg)
    (stream.drop (minFramesOf cfg)) (maxFramesOf cfg - minFramesOf cfg)
    (0 + minFramesOf cfg) 0 (by omega) (by omega)
    (by simp; omega) (by omega)
    (fun i hi => by
      rw [getD_drop_frames]
      exact hsil i (by omega))]
  simp only [Nat.sub_zero, List.length_append, List.length_take, List.length_drop]
  omega

/-- C2 (witness): on the loud-loud-silent-silent stream the recorder
returns exactly `2 + 2 = 4` frames. -/
theorem record_stops_witness :
    (recordUtterance cfgRec streamMinLoud).length =
      minFramesOf cfgRec + silenceLimitOf cfgRec :=
  record_stops_after_min_and_silence cfgRec streamMinLoud
    (of_decide_eq_true (by with_unfolding_all rfl))
    (of_decide_eq_true (by with_unfolding_all rfl))
    (of_decide_eq_true (by with_unfolding_all rfl))
    (of_decide_eq_true (by with_unfolding_all rfl))

/-- C7: when every frame of the stream is loud (RMS at or above the
silence threshold) and the stream supplies at least `max_frames`
frames, the recorder returns exactly
`max_frames = max(1, ⌊max_record_seconds * 1000 / chunk_ms⌋)`
frames. -/
theorem record_all_loud_max_frames (cfg : VoiceRuntimeConfig) (stream : List Frame)
    (hlen : maxFramesOf cfg ≤ stream.length)
    (hloud : ∀ f ∈ stream, frameIsSilent cfg.silence_threshold f = false) :
    (recordUtterance cfg stream).length = maxFramesOf cfg := by
  have hL : 1 ≤ silenceLimitOf cfg := le_max_left 1 _
  have hidx : ∀ i, i < maxFramesOf cfg →
      frameIsSilent cfg.silence_threshold (stream.getD i []) = false := by
    intro i hi
    have hmem : stream.getD i [] ∈ stream := by
      rw [List.getD_eq_getElem?_getD, List.getElem?_eq_getElem (by omega)]
      exact List.getElem_mem _
    exact hloud _ hmem
  unfold recordUtterance
  rw [recordGo_loud_run cfg.silence_threshold (minFramesOf cfg) (silenceLimitOf cfg) hL
    (maxFramesOf cfg) stream (maxFramesOf cfg) 0 hlen (le_refl _) hidx]
  simp only [Nat.sub_self, recordGo, List.append_nil, List.length_take]
  omega

/-- C7 (witness): ten loud frames fill the ten-frame cap exactly. -/
theorem record_all_loud_witness :
    (recordUtterance cfgRec streamAllLoud).length = maxFramesOf cfgRec :=
  record_all_loud_max_frames cfgRec streamAllLoud
    (of_decide_eq_true (by with_unfolding_all rfl))
    (of_decide_eq_true (by with_unfolding_all rfl))

/-- C10: for every configuration with a positive chunk duration
(including degenerate record durations), the derived limits
`max_frames`, `min_frames` and the silence limit are clamped to at
least 1, the recorder returns at most `max_frames` frames, and it
returns zero frames only when the queue stalls before yielding any
frame (the modelled stream is empty). -/
theorem record_derived_limits_bounds (cfg : VoiceRuntimeConfig) (stream : List Frame)
    (_hchunk : 0 < cfg.chunk_ms) :
    1 ≤ maxFramesOf cfg ∧ 1 ≤ minFramesOf cfg ∧ 1 ≤ silenceLimitOf cfg ∧
      (recordUtterance cfg stream).length ≤ maxFramesOf cfg ∧
      (recordUtterance cfg stream = [] → stream = []) := by
  refine ⟨le_max_left 1 _, le_max_left 1 _, le_max_left 1 _,
    recordGo_length_le _ _ _ _ _ _ _, ?_⟩
  intro h
  cases hs : stream with
  | nil => rfl
  | cons f rest =>
    exfalso
    have hM : 1 ≤ maxFramesOf cfg := le_max_left 1 _
    obtain ⟨n, hn⟩ : ∃ n, maxFramesOf cfg = n + 1 :=
      ⟨maxFramesOf cfg - 1, by omega⟩
    rw [hs] at h
    unfold recordUtterance at h
    rw [hn] at h
    exact recordGo_cons_ne_nil cfg.silence_threshold (minFramesOf cfg)
      (silenceLimitOf cfg) n 0 0 f rest h

/-- C10 (witness): the bounds at the example configuration, plus the
empty-stream case where the recorder indeed returns no frames. -/
theorem record_derived_limits_witness :
    (1 ≤ maxFramesOf cfgRec ∧ 1 ≤ minFramesOf cfgRec ∧ 1 ≤ silenceLimitOf cfgRec ∧
        (recordUtterance cfgRec streamMinEdge).length ≤ maxFramesOf cfgRec) ∧
      ([] : List Frame) = [] :=
  ⟨⟨(record_derived_limits_bounds cfgRec streamMinEdge (by decide)).1,
    (record_derived_limits_bounds cfgRec streamMinEdge (by decide)).2.1,
    (record_derived_limits_bounds cfgRec streamMinEdge (by decide)).2.2.1,
    (record_derived_limits_bounds cfgRec streamMinEdge (by decide)).2.2.2.1⟩,
    (record_derived_limits_bounds cfgRec [] (by decide)).2.2.2.2
      (by with_unfolding_all rfl)⟩

end NanobotVoice
